import Mathlib

set_option maxRecDepth 4000

attribute [local semireducible] Rat.mul Rat.add Rat.sub Rat.inv

/-!
Verification development for the crosspop survey cross-tabulation pipeline
(src/crosspop.py).  The Python source is shallowly embedded: pure helper
functions become Lean functions over exact rationals, IEEE special values
(NaN produced by np.nan and 0/0, infinities produced by division by zero)
are modelled explicitly by the PFloat type, pandas/NumPy container
operations are modelled over lists, and the SciPy chi-square call — whose
p-value is transcendental — is passed through the pipeline as an opaque
statistics oracle, so every pipeline theorem holds for every oracle.
-/

/-- Model of the IEEE-754 values the Python code can actually produce and
test: an exact finite value (floats are a subset of ℚ; the arithmetic the
program performs is modelled exactly over ℚ), positive/negative infinity
(from division of a nonzero value by zero) and NaN (from np.nan and 0/0). -/
inductive PFloat where
  | nan : PFloat
  | inf : PFloat
  | ninf : PFloat
  | num : ℚ → PFloat
deriving DecidableEq

/-- Model of np.isnan. -/
def PFloat.isnan : PFloat → Bool
  | nan => true
  | _ => false

/-- IEEE strict less-than: any comparison with NaN is false. -/
def PFloat.lt : PFloat → PFloat → Bool
  | nan, _ => false
  | _, nan => false
  | inf, _ => false
  | ninf, ninf => false
  | ninf, _ => true
  | num _, inf => true
  | num _, ninf => false
  | num a, num b => decide (a < b)

/-- IEEE greater-or-equal: any comparison with NaN is false. -/
def PFloat.ge : PFloat → PFloat → Bool
  | nan, _ => false
  | _, nan => false
  | inf, _ => true
  | ninf, ninf => true
  | ninf, _ => false
  | num _, inf => false
  | num _, ninf => true
  | num a, num b => decide (b ≤ a)

/-- IEEE division of two finite values as NumPy performs it: an ordinary
quotient when the divisor is nonzero, and otherwise NaN for 0/0 and a
signed infinity for x/0 with x ≠ 0 (NumPy emits a RuntimeWarning but no
exception). -/
def PFloat.qdiv (a b : ℚ) : PFloat :=
  if b ≠ 0 then .num (a / b)
  else if a = 0 then .nan
  else if 0 < a then .inf
  else .ninf

/-- Multiplication by a positive rational constant (the ×100 step of the
percentage views): it preserves NaN and the infinities. -/
def PFloat.scale (c : ℚ) : PFloat → PFloat
  | nan => nan
  | inf => inf
  | ninf => ninf
  | num q => num (q * c)

/-- Python slicing s[:n], by characters (both Python and Lean index strings
by code points). -/
def strTake (s : String) (n : ℕ) : String :=
  String.mk (s.toList.take n)

/-- Embedding of limpar_nome_sheet: replace each of the characters
[ ] : * ? / \ with a space, then keep at most 31 characters.  Because every
pattern is a single character, str.replace(ch, " ") is exactly the
per-character map sending ch to a space. -/
def limpar_nome_sheet (nome : String) : String :=
  String.mk ((("[]:*?/\\".toList).foldl
    (fun cs ch => cs.map (fun c => if c = ch then ' ' else c)) nome.toList).take 31)

/-- Embedding of the sheet/heatmap identifier built for a column pair: the
source forms limpar_nome_sheet(col1[:15] + "_" + col2[:15]) both at the
heatmap save path (line 121) and at the worksheet name (line 221). -/
def nome_par (col1 col2 : String) : String :=
  limpar_nome_sheet (strTake col1 15 ++ "_" ++ strTake col2 15)

/-- Embedding of the argument of np.sqrt inside calcular_v_cramer, i.e. the
squared Cramer V: chi2 / (n * (min r k - 1)) when min r k > 1, and np.nan
otherwise.  np.sqrt fixes NaN and +inf and carries num q (with 0 ≤ q) to
the finite value √q, so definedness and the [0,1] bounds of the V value
itself transfer directly from this pre-square-root value. -/
def calcular_v_cramer_sq (chi2 n : ℚ) (r k : ℕ) : PFloat :=
  if 1 < min r k then PFloat.qdiv chi2 (n * ((min r k : ℚ) - 1)) else .nan

/-- Embedding of classificar_forca, taking the V value itself. -/
def classificar_forca (v : PFloat) (categorias : ℕ) : String :=
  if v.isnan then "Não aplicável"
  else
    let limites : ℚ × ℚ × ℚ :=
      if categorias ≤ 2 then (1/10, 3/10, 1/2)
      else if categorias ≤ 4 then (7/100, 21/100, 35/100)
      else (6/100, 17/100, 29/100)
    if v.lt (.num limites.1) then "Fraca"
    else if v.lt (.num limites.2.1) then "Moderada"
    else if v.lt (.num limites.2.2) then "Forte"
    else "Muito forte"

/-- Variant of classificar_forca taking the squared V value (as produced by
calcular_v_cramer_sq), comparing against the squared cut points.  Since
v = √(vsq) with vsq ≥ 0 and every cut point is positive, v < t iff
vsq < t²; the lemma classificar_forca_sq_sqrt below proves this variant
agrees with a direct real-valued transcription of the source. -/
def classificar_forca_sq (vsq : PFloat) (categorias : ℕ) : String :=
  if vsq.isnan then "Não aplicável"
  else
    let limites : ℚ × ℚ × ℚ :=
      if categorias ≤ 2 then (1/100, 9/100, 1/4)
      else if categorias ≤ 4 then (49/10000, 441/10000, 1225/10000)
      else (36/10000, 289/10000, 841/10000)
    if vsq.lt (.num limites.1) then "Fraca"
    else if vsq.lt (.num limites.2.1) then "Moderada"
    else if vsq.lt (.num limites.2.2) then "Forte"
    else "Muito forte"

/-- The small-sample warning text appended by gerar_recomendacao. -/
def avisoAmostraPequena : String := " ⚠ Amostra pequena, interpretar com cautela"

/-- Embedding of gerar_recomendacao. -/
def gerar_recomendacao (p_aj v_cramer : PFloat) (n linhas colunas : ℕ) : String :=
  if v_cramer.isnan || p_aj.isnan then "Não aplicável (dados insuficientes)"
  else if p_aj.ge (.num (1/20)) then "Não significativo: sem associação relevante"
  else
    let categorias := min linhas colunas
    let limites : ℚ × ℚ × ℚ :=
      if categorias ≤ 2 then (1/10, 3/10, 1/2)
      else if categorias ≤ 4 then (7/100, 21/100, 35/100)
      else (6/100, 17/100, 29/100)
    let recomendacao :=
      if v_cramer.lt (.num limites.1) then "Associação significativa, mas fraca"
      else if v_cramer.lt (.num limites.2.1) then
        "Associação significativa moderada — vale explorar em gráficos e texto"
      else if v_cramer.lt (.num limites.2.2) then
        "Associação significativa forte — destacar na análise"
      else "Associação muito forte — resultado chave para destaque"
    if n < 30 then recomendacao ++ avisoAmostraPequena else recomendacao

/-- Variant of gerar_recomendacao taking the squared V value, used by the
pipeline embedding; the V cut points are squared exactly as in
classificar_forca_sq. -/
def gerar_recomendacao_sq (p_aj vsq : PFloat) (n linhas colunas : ℕ) : String :=
  if vsq.isnan || p_aj.isnan then "Não aplicável (dados insuficientes)"
  else if p_aj.ge (.num (1/20)) then "Não significativo: sem associação relevante"
  else
    let categorias := min linhas colunas
    let limites : ℚ × ℚ × ℚ :=
      if categorias ≤ 2 then (1/100, 9/100, 1/4)
      else if categorias ≤ 4 then (49/10000, 441/10000, 1225/10000)
      else (36/10000, 289/10000, 841/10000)
    let recomendacao :=
      if vsq.lt (.num limites.1) then "Associação significativa, mas fraca"
      else if vsq.lt (.num limites.2.1) then
        "Associação significativa moderada — vale explorar em gráficos e texto"
      else if vsq.lt (.num limites.2.2) then
        "Associação significativa forte — destacar na análise"
      else "Associação muito forte — resultado chave para destaque"
    if n < 30 then recomendacao ++ avisoAmostraPequena else recomendacao

/-- Order used to argsort (original index, p-value) pairs by p-value. -/
def pLE (a b : ℕ × ℚ) : Prop := a.2 ≤ b.2

instance : DecidableRel pLE := fun a b => inferInstanceAs (Decidable (a.2 ≤ b.2))

instance : IsTotal (ℕ × ℚ) pLE := ⟨fun a b => le_total a.2 b.2⟩

instance : IsTrans (ℕ × ℚ) pLE := ⟨fun _ _ _ => le_trans⟩

/-- The elementwise quotient pvals_sorted / ecdffactor of statsmodels
fdrcorrection: the entry at 1-based rank r is p × m / r. -/
def bhRaw (m : ℚ) : ℕ → List ℚ → List ℚ
  | _, [] => []
  | r, p :: ps => p * m / (r : ℚ) :: bhRaw m (r + 1) ps

/-- np.minimum.accumulate applied to the reversed list and reversed back:
entry j becomes the minimum of entries j..end. -/
def suffMins : List ℚ → List ℚ
  | [] => []
  | x :: xs =>
    match suffMins xs with
    | [] => [x]
    | y :: ys => min x y :: y :: ys

/-- First value bound to key i in an association list, with default 0 (in
fdr_bh every index below m is present exactly once, so the default is never
selected there). -/
def assocGet (i : ℕ) : List (ℕ × ℚ) → ℚ
  | [] => 0
  | (j, q) :: rest => if i = j then q else assocGet i rest

/-- The argsort step of statsmodels fdrcorrection, modelled by a stable
insertion sort on (original index, p-value) pairs ordered by p-value; tied
p-values receive equal adjusted values after the running-minimum step, so
the tie-breaking order cannot affect the corrector's output. -/
def spSort (ps : List ℚ) : List (ℕ × ℚ) :=
  List.insertionSort pLE ps.enum

/-- The sorted adjusted p-values of fdrcorrection before clipping:
pvals_sorted / ecdffactor followed by the reversed running minimum. -/
def bhMono (ps : List ℚ) : List ℚ :=
  suffMins (bhRaw (ps.length : ℚ) 1 ((spSort ps).map Prod.snd))

/-- Embedding of statsmodels multipletests(..., method="fdr_bh") restricted
to its adjusted p-value output: argsort the p-values, divide the sorted
vector by the ecdf factor rank/m, take the reversed running minimum, set
values above 1 to 1, and scatter back to the original positions
(pvals_corrected_[sortind] = pvals_corrected). -/
def fdr_bh (ps : List ℚ) : List ℚ :=
  (List.range ps.length).map (fun i =>
    assocGet i (((spSort ps).map Prod.fst).zip ((bhMono ps).map (fun q => min q 1))))

/-- Modelled from the spec: the Benjamini–Hochberg procedure in the spec's
own words — sort p-values ascending, compute adjusted_i = p_(i) × m /
rank_i, enforce monotonicity by taking the running minimum from the largest
rank down to the smallest, un-sort back to the original order, and clip to
the interval [0,1]. -/
def bh_spec (ps : List ℚ) : List ℚ :=
  ((List.range ps.length).map (fun i =>
    assocGet i (((spSort ps).map Prod.fst).zip (bhMono ps)))).map
    (fun q => max 0 (min q 1))

/-- The correction step of the pipeline (source lines 170-174): a nonempty
raw p-value list goes to multipletests, an empty one yields [] directly. -/
def corrigir_p (ps : List ℚ) : List ℚ :=
  if ps.isEmpty then [] else fdr_bh ps

/-- A survey question column: header name plus the per-respondent cells;
none models an empty cell, which pandas reads as NaN (the source applies no
fillna, so NaN cells stay NaN throughout). -/
structure Coluna where
  name : String
  values : List (Option String)

/-- All 2-combinations of a list, in the enumeration order of
itertools.combinations. -/
def colPairs {α : Type} : List α → List (α × α)
  | [] => []
  | x :: xs => xs.map (fun y => (x, y)) ++ colPairs xs

/-- The rows pd.crosstab actually counts for a pair of columns: the
positions where both cells hold a value.  A NaN in either coordinate drops
the row, because crosstab groups by both key columns and NaN keys are
excluded. -/
def keptPairs (xs ys : List (Option String)) : List (String × String) :=
  (xs.zip ys).filterMap (fun p =>
    match p with
    | (some a, some b) => some (a, b)
    | _ => none)

/-- Result of pd.crosstab(df[col1], df[col2], margins=False): the row and
column labels are the distinct observed values and each cell counts the
kept rows carrying that value combination.  pandas sorts the labels while
this model deduplicates them; every property proved here (shape, size,
marginal totals, cell counts) is invariant under the label order. -/
structure Tabela where
  rowsL : List String
  colsL : List String
  cell : String → String → ℕ

def crosstab (xs ys : List (Option String)) : Tabela :=
  { rowsL := ((keptPairs xs ys).map Prod.fst).dedup
    colsL := ((keptPairs xs ys).map Prod.snd).dedup
    cell := fun a b => (keptPairs xs ys).count (a, b) }

/-- DataFrame.size: number of cells. -/
def Tabela.size (t : Tabela) : ℕ := t.rowsL.length * t.colsL.length

/-- tabela.sum(axis=1)[a]: total of the row labelled a. -/
def Tabela.rowSum (t : Tabela) (a : String) : ℕ :=
  (t.colsL.map (fun b => t.cell a b)).sum

/-- tabela.sum(axis=0)[b]: total of the column labelled b. -/
def Tabela.colSum (t : Tabela) (b : String) : ℕ :=
  (t.rowsL.map (fun a => t.cell a b)).sum

/-- tabela.sum().sum(): the grand total. -/
def Tabela.total (t : Tabela) : ℕ :=
  (t.rowsL.map (fun a => t.rowSum a)).sum

/-- Cell of tabela_total = (tabela / tabela.sum().sum()) * 100 (pandas
divides elementwise, turning 0/0 into NaN, and multiplies by 100). -/
def pct_total (t : Tabela) (a b : String) : PFloat :=
  (PFloat.qdiv (t.cell a b) (t.total)).scale 100

/-- Cell of tabela_linha = tabela.div(tabela.sum(axis=1), axis=0) * 100. -/
def pct_linha (t : Tabela) (a b : String) : PFloat :=
  (PFloat.qdiv (t.cell a b) (t.rowSum a)).scale 100

/-- Cell of tabela_coluna = tabela.div(tabela.sum(axis=0), axis=1) * 100. -/
def pct_coluna (t : Tabela) (a b : String) : PFloat :=
  (PFloat.qdiv (t.cell a b) (t.colSum b)).scale 100

/-- Row marginal of an R×C table of observed counts. -/
def rowMarg {R C : ℕ} (O : Fin R → Fin C → ℚ) (i : Fin R) : ℚ := ∑ j, O i j

/-- Column marginal of an R×C table of observed counts. -/
def colMarg {R C : ℕ} (O : Fin R → Fin C → ℚ) (j : Fin C) : ℚ := ∑ i, O i j

/-- Grand total of an R×C table of observed counts. -/
def totalN {R C : ℕ} (O : Fin R → Fin C → ℚ) : ℚ := ∑ i, ∑ j, O i j

/-- Expected frequency under independence: row total × column total / N. -/
def expectedFreq {R C : ℕ} (O : Fin R → Fin C → ℚ) (i : Fin R) (j : Fin C) : ℚ :=
  rowMarg O i * colMarg O j / totalN O

/-- Modelled from the spec: the chi-square statistic that
scipy.stats.chi2_contingency computes under the approximation the spec
fixes in §4.2 (standard independence test, no continuity correction):
the sum over all cells of (observed − expected)² / expected. -/
def chi2stat {R C : ℕ} (O : Fin R → Fin C → ℚ) : ℚ :=
  ∑ i, ∑ j, (O i j - expectedFreq O i j)^2 / expectedFreq O i j

/-- Statistics returned by scipy.stats.chi2_contingency for one table:
the statistic, its p-value and the degrees of freedom. -/
structure Stats where
  chi2 : ℚ
  p : ℚ
  dof : ℕ
deriving DecidableEq

/-- The scipy call is modelled as an oracle parameter: the chi-square
p-value involves the (transcendental) chi-square CDF, so the pipeline is
parametrised by this function and every pipeline theorem quantifies over
all oracles; the theorems about the two-pass bookkeeping do not depend on
the numeric values the oracle returns. -/
def StatsOracle : Type := Tabela → Stats

/-- Entry of the info_chi2 list: (col1, col2, tabela, chi2, p_chi, dof). -/
structure InfoChi2 where
  c1 : String
  c2 : String
  t : Tabela
  chi2 : ℚ
  p : ℚ
  dof : ℕ

/-- PASS 1 of gerar_crosstables (source lines 162-168): for each
2-combination of columns build the crosstab and, if tabela.size > 0, append
the raw p-value to p_vals_chi2 and the info tuple to info_chi2. -/
def pass1 (cols : List Coluna) (st : StatsOracle) : List ℚ × List InfoChi2 :=
  (colPairs cols).foldl
    (fun acc pr =>
      let t := crosstab pr.1.values pr.2.values
      if 0 < t.size then
        let s := st t
        (acc.1 ++ [s.p], acc.2 ++ [⟨pr.1.name, pr.2.name, t, s.chi2, s.p, s.dof⟩])
      else acc)
    ([], [])

/-- One row of resultados_consolidados (source lines 210-213): question
names from the loop variables, statistics from info_chi2[idx_c], the n and
shape-dependent values from the current pair's own table. -/
structure Resultado where
  q1 : String
  q2 : String
  n : ℕ
  chi2 : ℚ
  dof : ℕ
  p_aj : ℚ
  v_sq : PFloat
  forca : String
  significancia : String
  recomendacao : String
deriving DecidableEq

/-- The conditional-format outcome for the cells of one pair's worksheet. -/
inductive Formato where
  | verde
  | verdeClaro
  | semDestaque
  | erroSemFormato
deriving DecidableEq

/-- The format chosen for every cell of a pair's worksheet (source lines
226-241).  With forca/significancia never assigned the name lookup inside
the try raises NameError for each cell and the except writes the cell with
no format (erroSemFormato); otherwise the if-chain picks the strong
highlight, the light highlight, or none. -/
def formatoDe : Option (String × String) → Formato
  | none => .erroSemFormato
  | some (forca, sig) =>
    if sig = "Sim" then
      if forca = "Moderada" ∨ forca = "Forte" ∨ forca = "Muito forte" then .verde
      else if forca = "Fraca" then .verdeClaro
      else .semDestaque
    else .semDestaque

/-- State threaded through the PASS 2 loop: the shared index idx_c, the
last values assigned to the function-local variables (forca,
significancia) — none before any assignment, modelling the unbound Python
locals — plus the consolidated rows and the per-sheet (name, format)
outputs. -/
structure Pass2State where
  idx : ℕ
  fs : Option (String × String)
  rows : List Resultado
  sheets : List (String × Formato)

/-- One iteration of PASS 2 (source lines 178-241) for the pair pr: rebuild
the crosstab; if idx_c < len(info_chi2) — the source checks only this, not
whether the current pair's own table is nonempty — consume info_chi2[idx_c]
and p_adj_chi2[idx_c], compute the statistics block and append a
consolidated row; then always write the worksheet, formatted with the
current values of forca/significancia. -/
def pass2step (info : List InfoChi2) (p_adj : List ℚ)
    (st : Pass2State) (pr : Coluna × Coluna) : Pass2State :=
  let t := crosstab pr.1.values pr.2.values
  let upd : Pass2State :=
    if h : st.idx < info.length then
      let inf := info.get ⟨st.idx, h⟩
      let p_aj := p_adj.getD st.idx 0
      let n_total := t.total
      let v_sq := calcular_v_cramer_sq inf.chi2 (n_total : ℚ) t.rowsL.length t.colsL.length
      let forca := classificar_forca_sq v_sq (min t.rowsL.length t.colsL.length)
      let recom := gerar_recomendacao_sq (.num p_aj) v_sq n_total t.rowsL.length t.colsL.length
      let sig := if p_aj < 1/20 then "Sim" else "Não"
      { idx := st.idx + 1
        fs := some (forca, sig)
        rows := st.rows ++
          [⟨pr.1.name, pr.2.name, n_total, inf.chi2, inf.dof, p_aj, v_sq, forca, sig, recom⟩]
        sheets := st.sheets }
    else st
  { idx := upd.idx
    fs := upd.fs
    rows := upd.rows
    sheets := upd.sheets ++ [(nome_par pr.1.name pr.2.name, formatoDe upd.fs)] }

/-- The statistical core of gerar_crosstables for one dataset (I/O
omitted): PASS 1 collects the raw p-values and info tuples, the batch BH
correction produces p_adj_chi2, PASS 2 produces the consolidated rows and
the per-pair worksheet formats. -/
def gerar_crosstables (cols : List Coluna) (st : StatsOracle) :
    List Resultado × List (String × Formato) :=
  let p1 := pass1 cols st
  let p_adj := corrigir_p p1.1
  let fin := (colPairs cols).foldl (pass2step p1.2 p_adj) ⟨0, none, [], []⟩
  (fin.rows, fin.sheets)

/-- Placeholder values for total positional access; selected only out of
range and never reached by the theorems below. -/
def colunaPadrao : Coluna := ⟨"", []⟩

def infoPadrao : InfoChi2 := ⟨"", "", ⟨[], [], fun _ _ => 0⟩, 0, 0, 0⟩

/-- The (forca, significancia) values the PASS 2 statistics branch computes
at loop position i (meaningful for i < len(info_chi2): the branch combines
the i-th pair's own table with info_chi2[i] and p_adj_chi2[i]). -/
def fsAt (cols : List Coluna) (st : StatsOracle) (i : ℕ) : String × String :=
  let pr := (colPairs cols).getD i (colunaPadrao, colunaPadrao)
  let inf := (pass1 cols st).2.getD i infoPadrao
  let p_aj := (corrigir_p (pass1 cols st).1).getD i 0
  let t := crosstab pr.1.values pr.2.values
  let v_sq := calcular_v_cramer_sq inf.chi2 ((t.total : ℚ)) t.rowsL.length t.colsL.length
  (classificar_forca_sq v_sq (min t.rowsL.length t.colsL.length),
   if p_aj < 1/20 then "Sim" else "Não")

/-- The consolidated row the statistics branch appends at loop position i. -/
def rowAt (cols : List Coluna) (st : StatsOracle) (i : ℕ) : Resultado :=
  let pr := (colPairs cols).getD i (colunaPadrao, colunaPadrao)
  let inf := (pass1 cols st).2.getD i infoPadrao
  let p_aj := (corrigir_p (pass1 cols st).1).getD i 0
  let t := crosstab pr.1.values pr.2.values
  let v_sq := calcular_v_cramer_sq inf.chi2 ((t.total : ℚ)) t.rowsL.length t.colsL.length
  let forca := classificar_forca_sq v_sq (min t.rowsL.length t.colsL.length)
  let recom := gerar_recomendacao_sq (.num p_aj) v_sq t.total t.rowsL.length t.colsL.length
  ⟨pr.1.name, pr.2.name, t.total, inf.chi2, inf.dof, p_aj, v_sq, forca,
   if p_aj < 1/20 then "Sim" else "Não", recom⟩

/-- The forca/significancia state after k PASS 2 iterations: none until the
statistics branch first fires, afterwards the values computed at the most
recent firing position, namely min k m − 1 where m = len(info_chi2). -/
def fsSpec (cols : List Coluna) (st : StatsOracle) (k : ℕ) : Option (String × String) :=
  if min k ((pass1 cols st).2.length) = 0 then none
  else some (fsAt cols st (min k ((pass1 cols st).2.length) - 1))

/-- The worksheet (name, format) written at loop position j. -/
def sheetAt (cols : List Coluna) (st : StatsOracle) (j : ℕ) : String × Formato :=
  let pr := (colPairs cols).getD j (colunaPadrao, colunaPadrao)
  (nome_par pr.1.name pr.2.name, formatoDe (fsSpec cols st (j + 1)))

/-- Modelled from the spec: the fallback substitution the spec describes
("empty cells are replaced with a fixed fallback label before any
computation"); the code under analysis contains no such fillna step, and
this definition exists only to exhibit the divergence. -/
def fillna (sentinel : String) (xs : List (Option String)) : List (Option String) :=
  xs.map (fun v => some (v.getD sentinel))

/-- A concrete 2×2 contingency table used by the C5 witness. -/
def tblW : Fin 2 → Fin 2 → ℚ := fun i j =>
  if i.val = 0 then (if j.val = 0 then 1 else 2) else (if j.val = 0 then 3 else 4)

/-- A one-cell table whose every count is zero; pd.crosstab never produces
it, but it exhibits what the percentage-view arithmetic does on a zero
denominator. -/
def tabelaZero : Tabela := ⟨["r"], ["c"], fun _ _ => 0⟩

/-- Dataset with three questions where question B was never answered: the
pair (A,B) and the pair (B,C) have empty contingency tables while (A,C)
does not.  Used to exercise the PASS 1 / PASS 2 misalignment. -/
def colA : Coluna := ⟨"A", [some "a1", some "a2"]⟩

def colB : Coluna := ⟨"B", [none, none]⟩

def colC : Coluna := ⟨"C", [some "c1", some "c2"]⟩

def dsFalha : List Coluna := [colA, colB, colC]

/-- A fixed statistics oracle standing for chi2_contingency on this
dataset (any values work; the bookkeeping does not depend on them). -/
def stFalha : StatsOracle := fun _ => ⟨7, 1/2, 1⟩

/-- Direct real-valued transcription of the defined-V branch of
classificar_forca, used only to justify the squared-threshold encoding. -/
noncomputable def classificar_forcaR (v : ℝ) (categorias : ℕ) : String :=
  let limites : ℚ × ℚ × ℚ :=
    if categorias ≤ 2 then (1/10, 3/10, 1/2)
    else if categorias ≤ 4 then (7/100, 21/100, 35/100)
    else (6/100, 17/100, 29/100)
  if v < (limites.1 : ℝ) then "Fraca"
  else if v < (limites.2.1 : ℝ) then "Moderada"
  else if v < (limites.2.2 : ℝ) then "Forte"
  else "Muito forte"

example : limpar_nome_sheet "a[b]c:d*e?f/g\\h" = "a b c d e f g h" := by decide

example : nome_par "abcdefghijklmnopqr" "xy" = "abcdefghijklmno_xy" := by decide

example : calcular_v_cramer_sq 1 0 2 2 = PFloat.inf := by decide

example : calcular_v_cramer_sq 3 2 1 5 = PFloat.nan := by decide

example : classificar_forca (.num (1/4)) 3 = "Forte" := by decide

example : classificar_forca .nan 7 = "Não aplicável" := by decide

example : gerar_recomendacao (.num (1/2)) (.num (1/10)) 10 2 2 =
    "Não significativo: sem associação relevante" := by decide

example : gerar_recomendacao (.num (1/100)) (.num (1/20)) 10 2 2 =
    "Associação significativa, mas fraca ⚠ Amostra pequena, interpretar com cautela" := by
  decide

example : fdr_bh [1/2, 1/4, 3/4] = [3/4, 3/4, 3/4] := by decide

example : fdr_bh [1/100, 1/2] = [1/50, 1/2] := by decide

example : bh_spec [1/100, 1/2] = [1/50, 1/2] := by decide

example : corrigir_p [] = [] := by decide

theorem suffMins_length (l : List ℚ) : (suffMins l).length = l.length := by
  induction l with
  | nil => rfl
  | cons x xs ih =>
    rw [suffMins]
    cases h : suffMins xs with
    | nil => rw [h] at ih; simpa using ih.symm
    | cons y ys => rw [h] at ih; simpa using ih

theorem suffMins_nonneg (l : List ℚ) (h : ∀ x ∈ l, 0 ≤ x) :
    ∀ y ∈ suffMins l, 0 ≤ y := by
  induction l with
  | nil => simp [suffMins]
  | cons x xs ih =>
    intro y hy
    have hx : 0 ≤ x := h x (by simp)
    have hxs : ∀ z ∈ xs, 0 ≤ z := fun z hz => h z (by simp [hz])
    rw [suffMins] at hy
    cases hsm : suffMins xs with
    | nil =>
      rw [hsm] at hy
      simp only [List.mem_singleton] at hy
      exact hy ▸ hx
    | cons a as =>
      rw [hsm] at hy
      simp only [List.mem_cons] at hy
      rcases hy with hy | hy | hy
      · subst hy
        exact le_min hx (ih hxs a (by simp [hsm]))
      · subst hy
        exact ih hxs y (by simp [hsm])
      · exact ih hxs y (by simp [hsm, hy])

theorem suffMins_sorted (l : List ℚ) : (suffMins l).Sorted (· ≤ ·) := by
  induction l with
  | nil => simp [suffMins]
  | cons x xs ih =>
    rw [suffMins]
    cases hsm : suffMins xs with
    | nil => simp
    | cons a as =>
      rw [hsm] at ih
      rw [List.sorted_cons]
      refine ⟨?_, ih⟩
      intro b hb
      rcases List.mem_cons.mp hb with hb | hb
      · exact hb ▸ min_le_right x a
      · exact le_trans (min_le_right x a) ((List.sorted_cons.mp ih).1 b hb)

theorem suffMins_ge (l : List ℚ) (c : ℚ) :
    ∀ j, (∀ k, j ≤ k → k < l.length → c ≤ l.getD k 0) → j < l.length →
      c ≤ (suffMins l).getD j 0 := by
  induction l with
  | nil => intro j _ hj; simp at hj
  | cons x xs ih =>
    intro j h hj
    rw [suffMins]
    match j with
    | 0 =>
      cases hsm : suffMins xs with
      | nil =>
        simpa using h 0 (le_refl 0) (by simp)
      | cons a as =>
        have hxs : 0 < xs.length := by
          have := suffMins_length xs
          rw [hsm] at this
          simp at this
          omega
        simp only [List.getD_cons_zero]
        refine le_min (by simpa using h 0 (le_refl 0) (by simp)) ?_
        have ha : c ≤ (suffMins xs).getD 0 0 := by
          refine ih 0 ?_ hxs
          intro k _ hk
          simpa using h (k + 1) (by omega) (by simpa using Nat.succ_lt_succ hk)
        rw [hsm] at ha
        simpa using ha
    | j + 1 =>
      cases hsm : suffMins xs with
      | nil =>
        have := suffMins_length xs
        rw [hsm] at this
        simp at this
        simp at hj
        omega
      | cons a as =>
        simp only [List.getD_cons_succ]
        have := ih j (fun k hk hk2 => by
          simpa using h (k + 1) (by omega) (by simpa using Nat.succ_lt_succ hk2))
          (by simp at hj; omega)
        rw [hsm] at this
        exact this

theorem bhRaw_length (m : ℚ) (r : ℕ) (l : List ℚ) :
    (bhRaw m r l).length = l.length := by
  induction l generalizing r with
  | nil => rfl
  | cons p ps ih => simp [bhRaw, ih]

theorem bhRaw_getD (m : ℚ) (r : ℕ) (l : List ℚ) :
    ∀ k, k < l.length →
      (bhRaw m r l).getD k 0 = l.getD k 0 * m / ((r + k : ℕ) : ℚ) := by
  induction l generalizing r with
  | nil => intro k hk; simp at hk
  | cons p ps ih =>
    intro k hk
    match k with
    | 0 => simp [bhRaw]
    | k + 1 =>
      rw [bhRaw]
      simp only [List.getD_cons_succ]
      rw [ih (r + 1) k (by simpa using Nat.lt_of_succ_lt_succ hk)]
      congr 2
      omega

theorem bhRaw_nonneg (m : ℚ) (r : ℕ) (l : List ℚ) (hm : 0 ≤ m)
    (hl : ∀ p ∈ l, 0 ≤ p) : ∀ x ∈ bhRaw m r l, 0 ≤ x := by
  induction l generalizing r with
  | nil => simp [bhRaw]
  | cons p ps ih =>
    intro x hx
    rw [bhRaw] at hx
    rcases List.mem_cons.mp hx with hx | hx
    · subst hx
      exact div_nonneg (mul_nonneg (hl p (by simp)) hm) (by positivity)
    · exact ih (r + 1) (fun q hq => hl q (by simp [hq])) x hx

theorem assocGet_zip (keys : List ℕ) (vals : List ℚ) (i : ℕ) :
    ∀ j, keys.Nodup → j < keys.length → j < vals.length → keys.getD j 0 = i →
      assocGet i (keys.zip vals) = vals.getD j 0 := by
  induction keys generalizing vals with
  | nil => intro j _ hj; simp at hj
  | cons k ks ih =>
    intro j hnd hj hjv hkey
    match vals with
    | [] => simp at hjv
    | v :: vs =>
      match j with
      | 0 =>
        simp only [List.getD_cons_zero] at hkey
        simp [List.zip_cons_cons, assocGet, hkey.symm]
      | j + 1 =>
        simp only [List.getD_cons_succ] at hkey
        have hmem : i ∈ ks := by
          have hjk : j < ks.length := by simpa using Nat.lt_of_succ_lt_succ hj
          rw [← hkey]
          rw [List.getD_eq_getElem _ _ hjk]
          exact List.getElem_mem hjk
        have hik : i ≠ k := by
          intro hik
          subst hik
          exact (List.nodup_cons.mp hnd).1 hmem
        rw [List.zip_cons_cons, assocGet, if_neg hik]
        exact ih vs j (List.nodup_cons.mp hnd).2 (by simpa using Nat.lt_of_succ_lt_succ hj)
          (by simpa using Nat.lt_of_succ_lt_succ hjv) hkey

theorem spSort_perm (ps : List ℚ) : List.Perm (spSort ps) ps.enum :=
  List.perm_insertionSort pLE ps.enum

theorem spSort_length (ps : List ℚ) : (spSort ps).length = ps.length := by
  rw [(spSort_perm ps).length_eq, List.enum_length]

theorem spSort_keys_perm (ps : List ℚ) :
    List.Perm ((spSort ps).map Prod.fst) (List.range ps.length) := by
  have := (spSort_perm ps).map Prod.fst
  rwa [List.enum_map_fst] at this

theorem spSort_keys_nodup (ps : List ℚ) : ((spSort ps).map Prod.fst).Nodup :=
  (spSort_keys_perm ps).nodup_iff.mpr (List.nodup_range _)

theorem spSort_snd_mem (ps : List ℚ) (x : ℕ × ℚ) (hx : x ∈ spSort ps) :
    x.2 ∈ ps := by
  have hx2 : x ∈ ps.enum := (spSort_perm ps).mem_iff.mp hx
  have := List.mem_map_of_mem Prod.snd hx2
  rwa [List.enum_map_snd] at this

theorem spSort_sorted (ps : List ℚ) :
    ((spSort ps).map Prod.snd).Sorted (· ≤ ·) := by
  have h : (spSort ps).Sorted pLE := List.sorted_insertionSort pLE ps.enum
  exact List.Pairwise.map Prod.snd (fun a b hab => hab) h

theorem mem_spSort (ps : List ℚ) (i : ℕ) (hi : i < ps.length) :
    ∃ j : Fin (spSort ps).length, (spSort ps).get j = (i, ps.getD i 0) := by
  have hmem : (i, ps.getD i 0) ∈ ps.enum := by
    have h1 : i < ps.enum.length := by rw [List.enum_length]; exact hi
    have h2 := List.getElem_enum ps i h1
    rw [List.getD_eq_getElem _ _ hi]
    rw [← h2]
    exact List.getElem_mem h1
  have : (i, ps.getD i 0) ∈ spSort ps := (spSort_perm ps).mem_iff.mpr hmem
  exact List.mem_iff_get.mp this

theorem bhMono_length (ps : List ℚ) : (bhMono ps).length = ps.length := by
  rw [bhMono, suffMins_length, bhRaw_length, List.length_map, spSort_length]

theorem map_range_getD (m : ℕ) (f : ℕ → ℚ) (i : ℕ) (hi : i < m) :
    ((List.range m).map f).getD i 0 = f i := by
  rw [List.getD_eq_getElem _ _ (by simpa using hi)]
  simp

theorem fdr_bh_length (ps : List ℚ) : (fdr_bh ps).length = ps.length := by
  rw [fdr_bh, List.length_map, List.length_range]

theorem bh_spec_length (ps : List ℚ) : (bh_spec ps).length = ps.length := by
  rw [bh_spec, List.length_map, List.length_map, List.length_range]

theorem fdr_bh_getD_eq (ps : List ℚ) (i : ℕ) (hi : i < ps.length)
    (j : Fin (spSort ps).length) (hj : (spSort ps).get j = (i, ps.getD i 0)) :
    (fdr_bh ps).getD i 0 = min ((bhMono ps).getD (j : ℕ) 0) 1 := by
  have hjk : (j : ℕ) < ((spSort ps).map Prod.fst).length := by
    rw [List.length_map]; exact j.isLt
  have hjv : (j : ℕ) < ((bhMono ps).map (fun q => min q 1)).length := by
    rw [List.length_map, bhMono_length, ← spSort_length]; exact j.isLt
  rw [fdr_bh, map_range_getD _ _ i hi]
  rw [assocGet_zip _ _ i (j : ℕ) (spSort_keys_nodup ps) hjk hjv ?_]
  · rw [List.getD_eq_getElem _ _ hjv, List.getElem_map,
      List.getD_eq_getElem _ _ (by rw [bhMono_length, ← spSort_length]; exact j.isLt)]
  · rw [List.getD_eq_getElem _ _ hjk, List.getElem_map]
    have : (spSort ps)[(j : ℕ)] = (i, ps.getD i 0) := by
      rw [← hj]; simp
    rw [this]

theorem bh_spec_getD_eq (ps : List ℚ) (i : ℕ) (hi : i < ps.length)
    (j : Fin (spSort ps).length) (hj : (spSort ps).get j = (i, ps.getD i 0)) :
    (bh_spec ps).getD i 0 = max 0 (min ((bhMono ps).getD (j : ℕ) 0) 1) := by
  have hjk : (j : ℕ) < ((spSort ps).map Prod.fst).length := by
    rw [List.length_map]; exact j.isLt
  have hjv : (j : ℕ) < (bhMono ps).length := by
    rw [bhMono_length, ← spSort_length]; exact j.isLt
  have hinner : i < ((List.range ps.length).map (fun i =>
      assocGet i (((spSort ps).map Prod.fst).zip (bhMono ps)))).length := by
    rw [List.length_map, List.length_range]; exact hi
  have hkey : ((spSort ps).map Prod.fst).getD (j : ℕ) 0 = i := by
    rw [List.getD_eq_getElem _ _ hjk, List.getElem_map]
    have : (spSort ps)[(j : ℕ)] = (i, ps.getD i 0) := by
      rw [← hj]; simp
    rw [this]
  have h2 : assocGet i (((spSort ps).map Prod.fst).zip (bhMono ps)) =
      (bhMono ps).getD (j : ℕ) 0 :=
    assocGet_zip _ _ i (j : ℕ) (spSort_keys_nodup ps) hjk hjv hkey
  rw [bh_spec, List.getD_eq_getElem _ _ (by rw [List.length_map]; exact hinner),
    List.getElem_map]
  have h3 := map_range_getD ps.length
    (fun i => assocGet i (((spSort ps).map Prod.fst).zip (bhMono ps))) i hi
  rw [List.getD_eq_getElem _ _ hinner] at h3
  rw [h3]
  exact congrArg (fun x => max 0 (min x 1)) h2

theorem bhMono_getD_ge (ps : List ℚ) (h0 : ∀ p ∈ ps, 0 ≤ p)
    (i : ℕ) (_hi : i < ps.length)
    (j : Fin (spSort ps).length) (hj : (spSort ps).get j = (i, ps.getD i 0)) :
    ps.getD i 0 ≤ (bhMono ps).getD (j : ℕ) 0 := by
  rw [bhMono]
  have hlen : ((spSort ps).map Prod.snd).length = ps.length := by
    rw [List.length_map, spSort_length]
  have hjlt : (j : ℕ) < ((spSort ps).map Prod.snd).length := by
    rw [List.length_map]; exact j.isLt
  have hsj : ((spSort ps).map Prod.snd).getD (j : ℕ) 0 = ps.getD i 0 := by
    rw [List.getD_eq_getElem _ _ hjlt, List.getElem_map]
    have : (spSort ps)[(j : ℕ)] = (i, ps.getD i 0) := by rw [← hj]; simp
    rw [this]
  refine suffMins_ge _ _ (j : ℕ) ?_ (by rw [bhRaw_length]; exact hjlt)
  intro k hk hk2
  rw [bhRaw_length] at hk2
  rw [bhRaw_getD _ _ _ k hk2]
  have hjk2 : ((spSort ps).map Prod.snd).getD (j : ℕ) 0 ≤
      ((spSort ps).map Prod.snd).getD k 0 := by
    rcases eq_or_lt_of_le hk with heq | hlt
    · rw [heq]
    · have := (List.pairwise_iff_get.mp (spSort_sorted ps)) ⟨(j : ℕ), hjlt⟩ ⟨k, hk2⟩ hlt
      rw [List.getD_eq_getElem _ _ hjlt, List.getD_eq_getElem _ _ hk2]
      exact this
  have hk0 : 0 ≤ ((spSort ps).map Prod.snd).getD k 0 := by
    have hmem : ((spSort ps).map Prod.snd).getD k 0 ∈ (spSort ps).map Prod.snd := by
      rw [List.getD_eq_getElem _ _ hk2]
      exact List.getElem_mem hk2
    obtain ⟨x, hx, hx2⟩ := List.mem_map.mp hmem
    exact hx2 ▸ h0 x.2 (spSort_snd_mem ps x hx)
  have hm1 : (1 : ℚ) ≤ (ps.length : ℚ) / ((1 + k : ℕ) : ℚ) := by
    rw [le_div_iff₀ (by positivity)]
    rw [one_mul]
    have : (1 + k : ℕ) ≤ ps.length := by omega
    exact_mod_cast this
  calc ps.getD i 0 = ((spSort ps).map Prod.snd).getD (j : ℕ) 0 := hsj.symm
    _ ≤ ((spSort ps).map Prod.snd).getD k 0 := hjk2
    _ = ((spSort ps).map Prod.snd).getD k 0 * 1 := by rw [mul_one]
    _ ≤ ((spSort ps).map Prod.snd).getD k 0 * ((ps.length : ℚ) / ((1 + k : ℕ) : ℚ)) := by
        exact mul_le_mul_of_nonneg_left hm1 hk0
    _ = ((spSort ps).map Prod.snd).getD k 0 * (ps.length : ℚ) / ((1 + k : ℕ) : ℚ) := by
        rw [mul_div_assoc]

theorem fdr_bh_ge_raw (ps : List ℚ) (h0 : ∀ p ∈ ps, 0 ≤ p) (h1 : ∀ p ∈ ps, p ≤ 1)
    (i : ℕ) (hi : i < ps.length) : ps.getD i 0 ≤ (fdr_bh ps).getD i 0 := by
  obtain ⟨j, hj⟩ := mem_spSort ps i hi
  rw [fdr_bh_getD_eq ps i hi j hj]
  have hpi_mem : ps.getD i 0 ∈ ps := by
    rw [List.getD_eq_getElem _ _ hi]
    exact List.getElem_mem hi
  exact le_min (bhMono_getD_ge ps h0 i hi j hj) (h1 _ hpi_mem)

theorem bhMono_getD_nonneg (ps : List ℚ) (h0 : ∀ p ∈ ps, 0 ≤ p) (k : ℕ)
    (hk : k < (bhMono ps).length) : 0 ≤ (bhMono ps).getD k 0 := by
  have hmem : (bhMono ps).getD k 0 ∈ bhMono ps := by
    rw [List.getD_eq_getElem _ _ hk]
    exact List.getElem_mem hk
  rw [bhMono] at hmem
  refine suffMins_nonneg _ ?_ _ hmem
  refine bhRaw_nonneg _ _ _ (by positivity) ?_
  intro p hp
  obtain ⟨x, hx, hx2⟩ := List.mem_map.mp hp
  exact hx2 ▸ h0 x.2 (spSort_snd_mem ps x hx)

theorem fdr_bh_eq_bh_spec (ps : List ℚ) (h0 : ∀ p ∈ ps, 0 ≤ p) :
    fdr_bh ps = bh_spec ps := by
  apply List.ext_getElem (by rw [fdr_bh_length, bh_spec_length])
  intro i h1 h2
  have hi : i < ps.length := by rwa [fdr_bh_length] at h1
  obtain ⟨j, hj⟩ := mem_spSort ps i hi
  rw [← List.getD_eq_getElem _ 0 h1, ← List.getD_eq_getElem _ 0 h2,
    fdr_bh_getD_eq ps i hi j hj, bh_spec_getD_eq ps i hi j hj]
  have hjm : (j : ℕ) < (bhMono ps).length := by
    rw [bhMono_length, ← spSort_length]; exact j.isLt
  have := bhMono_getD_nonneg ps h0 (j : ℕ) hjm
  rw [max_eq_right (le_min this zero_le_one)]

theorem enumFrom_sorted (l : List ℚ) :
    ∀ n, l.Sorted (· ≤ ·) → (l.enumFrom n).Sorted pLE := by
  induction l with
  | nil => intro n _; simp
  | cons x xs ih =>
    intro n hs
    rw [List.enumFrom_cons, List.sorted_cons]
    constructor
    · intro b hb
      have hb2 : b.2 ∈ xs := by
        have := List.mem_map_of_mem Prod.snd hb
        rwa [List.enumFrom_map_snd] at this
      exact (List.sorted_cons.mp hs).1 b.2 hb2
    · exact ih (n + 1) (List.sorted_cons.mp hs).2

theorem spSort_of_sorted (ps : List ℚ) (hs : ps.Sorted (· ≤ ·)) :
    spSort ps = ps.enum :=
  List.Sorted.insertionSort_eq (enumFrom_sorted ps 0 hs)

theorem assocGet_range_self (m : ℕ) (vals : List ℚ) (hlen : vals.length = m) :
    (List.range m).map (fun i => assocGet i ((List.range m).zip vals)) = vals := by
  apply List.ext_getElem (by rw [List.length_map, List.length_range, hlen])
  intro i h1 h2
  have him : i < m := by rwa [List.length_map, List.length_range] at h1
  rw [List.getElem_map, List.getElem_range]
  have := assocGet_zip (List.range m) vals i i (List.nodup_range m)
    (by rw [List.length_range]; exact him) (by rw [hlen]; exact him)
    (by rw [List.getD_eq_getElem _ _ (by rw [List.length_range]; exact him)]
        simp)
  rw [this, List.getD_eq_getElem _ _ h2]

theorem fdr_bh_of_sorted (ps : List ℚ) (hs : ps.Sorted (· ≤ ·)) :
    fdr_bh ps = (bhMono ps).map (fun q => min q 1) := by
  rw [fdr_bh, spSort_of_sorted ps hs, List.enum_map_fst]
  exact assocGet_range_self ps.length _ (by rw [List.length_map, bhMono_length])

theorem fdr_bh_sorted (ps : List ℚ) (hs : ps.Sorted (· ≤ ·)) :
    (fdr_bh ps).Sorted (· ≤ ·) := by
  rw [fdr_bh_of_sorted ps hs]
  refine List.Pairwise.map (fun q => min q 1) ?_ (suffMins_sorted _)
  intro a b hab
  exact min_le_min hab (le_refl 1)

example : (crosstab [some "a", none, some "a"] [some "u", some "v", some "w"]).total = 2 := by
  decide

example : (crosstab [some "a", none] [some "u", some "v"]).size = 1 := by decide

theorem crosstab_rows_mem (xs ys : List (Option String)) (a : String) :
    a ∈ (crosstab xs ys).rowsL ↔ ∃ b, (a, b) ∈ keptPairs xs ys := by
  constructor
  · intro ha
    rw [crosstab] at ha
    simp only [List.mem_dedup, List.mem_map] at ha
    obtain ⟨p, hp, hpa⟩ := ha
    exact ⟨p.2, by rw [← hpa]; exact hp⟩
  · intro ⟨b, hb⟩
    rw [crosstab]
    simp only [List.mem_dedup, List.mem_map]
    exact ⟨(a, b), hb, rfl⟩

theorem crosstab_cols_mem (xs ys : List (Option String)) (b : String) :
    b ∈ (crosstab xs ys).colsL ↔ ∃ a, (a, b) ∈ keptPairs xs ys := by
  constructor
  · intro hb
    rw [crosstab] at hb
    simp only [List.mem_dedup, List.mem_map] at hb
    obtain ⟨p, hp, hpb⟩ := hb
    exact ⟨p.1, by rw [← hpb]; exact hp⟩
  · intro ⟨a, ha⟩
    rw [crosstab]
    simp only [List.mem_dedup, List.mem_map]
    exact ⟨(a, b), ha, rfl⟩

theorem crosstab_rowSum_pos (xs ys : List (Option String)) (a : String)
    (ha : a ∈ (crosstab xs ys).rowsL) : 0 < (crosstab xs ys).rowSum a := by
  obtain ⟨b, hb⟩ := (crosstab_rows_mem xs ys a).mp ha
  have hbc : b ∈ (crosstab xs ys).colsL := (crosstab_cols_mem xs ys b).mpr ⟨a, hb⟩
  have hcount : 0 < (crosstab xs ys).cell a b := by
    rw [crosstab]
    exact List.count_pos_iff.mpr hb
  have hmem : (crosstab xs ys).cell a b ∈
      ((crosstab xs ys).colsL.map (fun b => (crosstab xs ys).cell a b)) :=
    List.mem_map_of_mem _ hbc
  calc 0 < (crosstab xs ys).cell a b := hcount
    _ ≤ (crosstab xs ys).rowSum a := List.single_le_sum (fun x _ => Nat.zero_le x) _ hmem

theorem crosstab_colSum_pos (xs ys : List (Option String)) (b : String)
    (hb : b ∈ (crosstab xs ys).colsL) : 0 < (crosstab xs ys).colSum b := by
  obtain ⟨a, ha⟩ := (crosstab_cols_mem xs ys b).mp hb
  have hac : a ∈ (crosstab xs ys).rowsL := (crosstab_rows_mem xs ys a).mpr ⟨b, ha⟩
  have hcount : 0 < (crosstab xs ys).cell a b := by
    rw [crosstab]
    exact List.count_pos_iff.mpr ha
  have hmem : (crosstab xs ys).cell a b ∈
      ((crosstab xs ys).rowsL.map (fun a => (crosstab xs ys).cell a b)) :=
    List.mem_map_of_mem _ hac
  calc 0 < (crosstab xs ys).cell a b := hcount
    _ ≤ (crosstab xs ys).colSum b := List.single_le_sum (fun x _ => Nat.zero_le x) _ hmem

theorem crosstab_total_pos (xs ys : List (Option String))
    (h : (crosstab xs ys).rowsL ≠ []) : 0 < (crosstab xs ys).total := by
  obtain ⟨a, ha⟩ := List.exists_mem_of_ne_nil _ h
  have hmem : (crosstab xs ys).rowSum a ∈
      ((crosstab xs ys).rowsL.map (fun a => (crosstab xs ys).rowSum a)) :=
    List.mem_map_of_mem _ ha
  calc 0 < (crosstab xs ys).rowSum a := crosstab_rowSum_pos xs ys a ha
    _ ≤ (crosstab xs ys).total := List.single_le_sum (fun x _ => Nat.zero_le x) _ hmem

theorem list_toFinset_dedup {α : Type} [DecidableEq α] (l : List α) :
    l.dedup.toFinset = l.toFinset := by
  ext x
  simp [List.mem_toFinset, List.mem_dedup]

theorem count_beq_irrel (l : List (String × String)) (p : String × String) :
    @List.count _ instBEqProd p l = @List.count _ instBEqOfDecidableEq p l := by
  rw [@List.count_eq_countP _ instBEqProd, @List.count_eq_countP _ instBEqOfDecidableEq]
  apply List.countP_congr
  intro x _
  by_cases hx : x = p
  · subst hx
    simp [instBEqOfDecidableEq]
  · simp [instBEqOfDecidableEq, hx]

theorem crosstab_total_eq (xs ys : List (Option String)) :
    (crosstab xs ys).total = (keptPairs xs ys).length := by
  set l := keptPairs xs ys with hl
  have hA : ((l.map Prod.fst).dedup).Nodup := List.nodup_dedup _
  have hB : ((l.map Prod.snd).dedup).Nodup := List.nodup_dedup _
  have hrow : ∀ a, (crosstab xs ys).rowSum a =
      (l.map Prod.snd).toFinset.sum (fun b => l.count (a, b)) := by
    intro a
    show ((l.map Prod.snd).dedup.map (fun b => l.count (a, b))).sum = _
    have h1 := List.sum_toFinset (fun b => l.count (a, b)) hB
    rw [list_toFinset_dedup] at h1
    rw [← h1]
  have htot : (crosstab xs ys).total =
      (l.map Prod.fst).toFinset.sum (fun a =>
        (l.map Prod.snd).toFinset.sum (fun b => l.count (a, b))) := by
    show ((l.map Prod.fst).dedup.map (fun a => (crosstab xs ys).rowSum a)).sum = _
    have h2 := List.sum_toFinset (fun a => (crosstab xs ys).rowSum a) hA
    rw [list_toFinset_dedup] at h2
    rw [← h2]
    exact Finset.sum_congr rfl (fun a _ => hrow a)
  rw [htot, ← Finset.sum_product']
  have hsub : l.toFinset ⊆ (l.map Prod.fst).toFinset ×ˢ (l.map Prod.snd).toFinset := by
    intro p hp
    rw [List.mem_toFinset] at hp
    rw [Finset.mem_product, List.mem_toFinset, List.mem_toFinset]
    exact ⟨List.mem_map_of_mem Prod.fst hp, List.mem_map_of_mem Prod.snd hp⟩
  have hzero : ∀ p ∈ (l.map Prod.fst).toFinset ×ˢ (l.map Prod.snd).toFinset,
      p ∉ l.toFinset → l.count p = 0 := by
    intro p _ hp
    rw [List.mem_toFinset] at hp
    exact List.count_eq_zero.mpr hp
  have hsum := Finset.sum_subset hsub hzero
  calc (∑ p ∈ (l.map Prod.fst).toFinset ×ˢ (l.map Prod.snd).toFinset, l.count (p.1, p.2))
      = ∑ p ∈ (l.map Prod.fst).toFinset ×ˢ (l.map Prod.snd).toFinset, l.count p := by
        refine Finset.sum_congr rfl (fun p _ => ?_)
        rw [Prod.mk.eta]
    _ = ∑ p ∈ l.toFinset, l.count p := hsum.symm
    _ = ∑ p ∈ l.toFinset, @List.count _ instBEqOfDecidableEq p l :=
        Finset.sum_congr rfl (fun p _ => count_beq_irrel l p)
    _ = l.length := List.sum_toFinset_count_eq_length l

theorem totalN_eq_sum_rowMarg {R C : ℕ} (O : Fin R → Fin C → ℚ) :
    totalN O = ∑ i, rowMarg O i := rfl

theorem totalN_eq_sum_colMarg {R C : ℕ} (O : Fin R → Fin C → ℚ) :
    totalN O = ∑ j, colMarg O j := by
  rw [totalN, Finset.sum_comm]
  rfl

theorem totalN_pos {R C : ℕ} (O : Fin R → Fin C → ℚ) (hR : 0 < R)
    (hr : ∀ i, 0 < rowMarg O i) : 0 < totalN O := by
  rw [totalN_eq_sum_rowMarg]
  refine Finset.sum_pos (fun i _ => hr i) ?_
  exact Finset.univ_nonempty_iff.mpr (Fin.pos_iff_nonempty.mp hR)

theorem expectedFreq_pos {R C : ℕ} (O : Fin R → Fin C → ℚ) (hR : 0 < R)
    (hr : ∀ i, 0 < rowMarg O i) (hc : ∀ j, 0 < colMarg O j) (i : Fin R) (j : Fin C) :
    0 < expectedFreq O i j := by
  rw [expectedFreq]
  exact div_pos (mul_pos (hr i) (hc j)) (totalN_pos O hR hr)

theorem chi2stat_nonneg {R C : ℕ} (O : Fin R → Fin C → ℚ) (hR : 0 < R)
    (hr : ∀ i, 0 < rowMarg O i) (hc : ∀ j, 0 < colMarg O j) :
    0 ≤ chi2stat O := by
  rw [chi2stat]
  refine Finset.sum_nonneg (fun i _ => Finset.sum_nonneg (fun j _ => ?_))
  exact div_nonneg (sq_nonneg _) (le_of_lt (expectedFreq_pos O hR hr hc i j))

theorem sum_expectedFreq {R C : ℕ} (O : Fin R → Fin C → ℚ) (hn : totalN O ≠ 0) :
    ∑ i, ∑ j, expectedFreq O i j = totalN O := by
  have h1 : ∀ i : Fin R, ∑ j, expectedFreq O i j = rowMarg O i * totalN O / totalN O := by
    intro i
    calc ∑ j, expectedFreq O i j
        = ∑ j, rowMarg O i * colMarg O j / totalN O := rfl
      _ = (∑ j, rowMarg O i * colMarg O j) / totalN O := by rw [Finset.sum_div]
      _ = rowMarg O i * (∑ j, colMarg O j) / totalN O := by rw [Finset.mul_sum]
      _ = rowMarg O i * totalN O / totalN O := by rw [← totalN_eq_sum_colMarg O]
  calc ∑ i, ∑ j, expectedFreq O i j
      = ∑ i, rowMarg O i * totalN O / totalN O := Finset.sum_congr rfl (fun i _ => h1 i)
    _ = ∑ i, rowMarg O i := Finset.sum_congr rfl (fun i _ => by
        rw [mul_div_assoc, div_self hn, mul_one])
    _ = totalN O := (totalN_eq_sum_rowMarg O).symm

theorem chi2stat_eq {R C : ℕ} (O : Fin R → Fin C → ℚ) (hR : 0 < R)
    (hr : ∀ i, 0 < rowMarg O i) (hc : ∀ j, 0 < colMarg O j) :
    chi2stat O =
      totalN O * (∑ i, ∑ j, (O i j)^2 / (rowMarg O i * colMarg O j)) - totalN O := by
  have hn : 0 < totalN O := totalN_pos O hR hr
  have hterm : ∀ (i : Fin R) (j : Fin C),
      (O i j - expectedFreq O i j)^2 / expectedFreq O i j =
      (O i j)^2 / expectedFreq O i j - 2 * O i j + expectedFreq O i j := by
    intro i j
    have hE : expectedFreq O i j ≠ 0 := ne_of_gt (expectedFreq_pos O hR hr hc i j)
    field_simp
    ring
  have hterm2 : ∀ (i : Fin R) (j : Fin C),
      (O i j)^2 / expectedFreq O i j =
        totalN O * ((O i j)^2 / (rowMarg O i * colMarg O j)) := by
    intro i j
    rw [expectedFreq, div_div_eq_mul_div, mul_comm ((O i j)^2) (totalN O), mul_div_assoc]
  calc chi2stat O
      = ∑ i, ∑ j, ((O i j)^2 / expectedFreq O i j - 2 * O i j + expectedFreq O i j) := by
        rw [chi2stat]
        exact Finset.sum_congr rfl (fun i _ => Finset.sum_congr rfl (fun j _ => hterm i j))
    _ = (∑ i, ∑ j, (O i j)^2 / expectedFreq O i j) - (∑ i, ∑ j, 2 * O i j)
          + (∑ i, ∑ j, expectedFreq O i j) := by
        simp only [Finset.sum_add_distrib, Finset.sum_sub_distrib]
    _ = (∑ i, ∑ j, (O i j)^2 / expectedFreq O i j) - 2 * totalN O + totalN O := by
        rw [sum_expectedFreq O (ne_of_gt hn)]
        congr 1
        congr 1
        rw [totalN, Finset.mul_sum]
        exact Finset.sum_congr rfl (fun i _ => by rw [Finset.mul_sum])
    _ = totalN O * (∑ i, ∑ j, (O i j)^2 / (rowMarg O i * colMarg O j))
          - 2 * totalN O + totalN O := by
        congr 2
        rw [Finset.mul_sum]
        refine Finset.sum_congr rfl (fun i _ => ?_)
        rw [Finset.mul_sum]
        exact Finset.sum_congr rfl (fun j _ => hterm2 i j)
    _ = totalN O * (∑ i, ∑ j, (O i j)^2 / (rowMarg O i * colMarg O j)) - totalN O := by
        ring

theorem sumS_le_cols {R C : ℕ} (O : Fin R → Fin C → ℚ) (hO : ∀ i j, 0 ≤ O i j)
    (hr : ∀ i, 0 < rowMarg O i) (hc : ∀ j, 0 < colMarg O j) :
    (∑ i, ∑ j, (O i j)^2 / (rowMarg O i * colMarg O j)) ≤ (C : ℚ) := by
  rw [Finset.sum_comm]
  have hcol : ∀ j : Fin C, (∑ i, (O i j)^2 / (rowMarg O i * colMarg O j)) ≤ 1 := by
    intro j
    have hstep : ∀ i : Fin R, (O i j)^2 / (rowMarg O i * colMarg O j) =
        ((O i j)^2 / rowMarg O i) / colMarg O j := by
      intro i
      rw [div_div]
    calc ∑ i, (O i j)^2 / (rowMarg O i * colMarg O j)
        = ∑ i, ((O i j)^2 / rowMarg O i) / colMarg O j :=
          Finset.sum_congr rfl (fun i _ => hstep i)
      _ = (∑ i, (O i j)^2 / rowMarg O i) / colMarg O j := by rw [Finset.sum_div]
      _ ≤ 1 := by
          rw [div_le_one (hc j)]
          calc ∑ i, (O i j)^2 / rowMarg O i
              ≤ ∑ i, O i j := by
                refine Finset.sum_le_sum (fun i _ => ?_)
                rw [div_le_iff₀ (hr i)]
                have hle : O i j ≤ rowMarg O i :=
                  Finset.single_le_sum (fun j' _ => hO i j') (Finset.mem_univ j)
                calc (O i j)^2 = O i j * O i j := sq (O i j) ▸ rfl
                  _ ≤ O i j * rowMarg O i := by
                      exact mul_le_mul_of_nonneg_left hle (hO i j)
            _ = colMarg O j := rfl
  calc ∑ j, ∑ i, (O i j)^2 / (rowMarg O i * colMarg O j)
      ≤ ∑ j : Fin C, (1 : ℚ) := Finset.sum_le_sum (fun j _ => hcol j)
    _ = (C : ℚ) := by simp

theorem sumS_le_rows {R C : ℕ} (O : Fin R → Fin C → ℚ) (hO : ∀ i j, 0 ≤ O i j)
    (hr : ∀ i, 0 < rowMarg O i) (hc : ∀ j, 0 < colMarg O j) :
    (∑ i, ∑ j, (O i j)^2 / (rowMarg O i * colMarg O j)) ≤ (R : ℚ) := by
  have hrow : ∀ i : Fin R, (∑ j, (O i j)^2 / (rowMarg O i * colMarg O j)) ≤ 1 := by
    intro i
    have hstep : ∀ j : Fin C, (O i j)^2 / (rowMarg O i * colMarg O j) =
        ((O i j)^2 / colMarg O j) / rowMarg O i := by
      intro j
      rw [div_div, mul_comm]
    calc ∑ j, (O i j)^2 / (rowMarg O i * colMarg O j)
        = ∑ j, ((O i j)^2 / colMarg O j) / rowMarg O i :=
          Finset.sum_congr rfl (fun j _ => hstep j)
      _ = (∑ j, (O i j)^2 / colMarg O j) / rowMarg O i := by rw [Finset.sum_div]
      _ ≤ 1 := by
          rw [div_le_one (hr i)]
          calc ∑ j, (O i j)^2 / colMarg O j
              ≤ ∑ j, O i j := by
                refine Finset.sum_le_sum (fun j _ => ?_)
                rw [div_le_iff₀ (hc j)]
                have hle : O i j ≤ colMarg O j :=
                  Finset.single_le_sum (fun i' _ => hO i' j) (Finset.mem_univ i)
                calc (O i j)^2 = O i j * O i j := sq (O i j) ▸ rfl
                  _ ≤ O i j * colMarg O j := by
                      exact mul_le_mul_of_nonneg_left hle (hO i j)
            _ = rowMarg O i := rfl
  calc ∑ i, ∑ j, (O i j)^2 / (rowMarg O i * colMarg O j)
      ≤ ∑ i : Fin R, (1 : ℚ) := Finset.sum_le_sum (fun i _ => hrow i)
    _ = (R : ℚ) := by simp

theorem chi2stat_le {R C : ℕ} (O : Fin R → Fin C → ℚ) (hR : 0 < R)
    (hO : ∀ i j, 0 ≤ O i j)
    (hr : ∀ i, 0 < rowMarg O i) (hc : ∀ j, 0 < colMarg O j) :
    chi2stat O ≤ totalN O * ((min R C : ℚ) - 1) := by
  have hn : 0 < totalN O := totalN_pos O hR hr
  have hS : (∑ i, ∑ j, (O i j)^2 / (rowMarg O i * colMarg O j)) ≤ (min R C : ℚ) := by
    exact le_min (sumS_le_rows O hO hr hc) (sumS_le_cols O hO hr hc)
  rw [chi2stat_eq O hR hr hc, mul_sub, mul_one]
  have := mul_le_mul_of_nonneg_left hS (le_of_lt hn)
  linarith

example : ((gerar_crosstables
    [⟨"A", [some "a1", some "a2"]⟩, ⟨"B", [none, none]⟩, ⟨"C", [some "c1", some "c2"]⟩]
    (fun _ => ⟨7, 1/2, 1⟩)).1.map (fun r => (r.q1, r.q2))) = [("A", "B")] := by decide

theorem fsSpec_succ_of_lt (cols : List Coluna) (st : StatsOracle) (k : ℕ)
    (hkm : k < (pass1 cols st).2.length) :
    fsSpec cols st (k + 1) = some (fsAt cols st k) := by
  rw [fsSpec]
  have hmin2 : min (k + 1) ((pass1 cols st).2.length) = k + 1 := by omega
  rw [hmin2, if_neg (by omega)]
  simp

theorem fsSpec_succ_of_ge (cols : List Coluna) (st : StatsOracle) (k : ℕ)
    (hkm : (pass1 cols st).2.length ≤ k) :
    fsSpec cols st (k + 1) = fsSpec cols st k := by
  rw [fsSpec, fsSpec]
  have h1 : min (k + 1) ((pass1 cols st).2.length) = (pass1 cols st).2.length := by omega
  have h2 : min k ((pass1 cols st).2.length) = (pass1 cols st).2.length := by omega
  rw [h1, h2]

theorem pass2_inv (cols : List Coluna) (st : StatsOracle) :
    ∀ k, k ≤ (colPairs cols).length →
    ((colPairs cols).take k).foldl
        (pass2step (pass1 cols st).2 (corrigir_p (pass1 cols st).1))
        ⟨0, none, [], []⟩ =
      ⟨min k ((pass1 cols st).2.length), fsSpec cols st k,
       (List.range (min k ((pass1 cols st).2.length))).map (rowAt cols st),
       (List.range k).map (sheetAt cols st)⟩ := by
  intro k
  induction k with
  | zero =>
    intro _
    simp [fsSpec]
  | succ k ih =>
    intro hk1
    have hk : k < (colPairs cols).length := by omega
    have hkle : k ≤ (colPairs cols).length := by omega
    rw [List.take_succ, List.getElem?_eq_getElem hk]
    rw [List.foldl_append, ih hkle]
    simp only [Option.toList_some, List.foldl_cons, List.foldl_nil]
    have hgetD : (colPairs cols).getD k (colunaPadrao, colunaPadrao) =
        (colPairs cols)[k] := by
      rw [List.getD_eq_getElem _ _ hk]
    by_cases hkm : k < (pass1 cols st).2.length
    · have hmin : min k ((pass1 cols st).2.length) = k := by omega
      have hmin2 : min (k + 1) ((pass1 cols st).2.length) = k + 1 := by omega
      have hinf : (pass1 cols st).2.get ⟨k, hkm⟩ =
          (pass1 cols st).2.getD k infoPadrao := by
        rw [List.getD_eq_getElem _ _ hkm]
        rfl
      rw [pass2step]
      simp only [hmin, dif_pos hkm, Pass2State.mk.injEq]
      refine ⟨by omega, ?_, ?_, ?_⟩
      · rw [fsSpec_succ_of_lt cols st k hkm, fsAt, hgetD, hinf]
      · rw [hmin2, List.range_succ, List.map_append, List.map_singleton, rowAt,
          hgetD, hinf]
      · rw [List.range_succ, List.map_append, List.map_singleton, sheetAt,
          fsSpec_succ_of_lt cols st k hkm, fsAt, hgetD, hinf]
    · have hge : (pass1 cols st).2.length ≤ k := by omega
      have hminE : min k ((pass1 cols st).2.length) = (pass1 cols st).2.length := by
        omega
      have hminE2 : min (k + 1) ((pass1 cols st).2.length) =
          (pass1 cols st).2.length := by omega
      rw [pass2step]
      simp only [hminE, dif_neg (lt_irrefl _), Pass2State.mk.injEq]
      refine ⟨by omega, ?_, ?_, ?_⟩
      · rw [fsSpec_succ_of_ge cols st k hge]
      · rw [hminE2]
      · rw [List.range_succ, List.map_append, List.map_singleton, sheetAt,
          fsSpec_succ_of_ge cols st k hge, hgetD]

/-- C3 counterexample: the spec claims every missing cell is replaced by a
sentinel before any statistic, so a row with a missing value would still be
counted in the pair's contingency table.  On the concrete pair of columns
below, the sentinel-filled table (what the spec describes) counts both
rows, but the code's table counts only one: pd.crosstab drops the row whose
first coordinate is missing. -/
theorem crosspop_C3_counterexample :
    (crosstab (fillna "Não respondeu" [some "a", none]) [some "u", some "v"]).total = 2 ∧
    (crosstab [some "a", none] [some "u", some "v"]).total = 1 := by
  decide

/-- C3 amended: missing cells are not replaced before statistics; the
contingency table built by pd.crosstab counts exactly the rows in which
both columns hold a value, so every row with a missing value in either
column of the pair is dropped from that pair's table. -/
theorem crosspop_C3 (xs ys : List (Option String)) :
    (crosstab xs ys).total = (keptPairs xs ys).length :=
  crosstab_total_eq xs ys

/-- C9: the worksheet/heatmap identifier of a column pair is computed from
limpar_nome_sheet(col1[:15] + "_" + col2[:15]), so it depends only on the
first 15 characters of each column name: any two pairs that agree on those
prefixes receive identical sheet names and heatmap file names and therefore
collide. -/
theorem crosspop_C9 (a b a' b' : String)
    (h1 : strTake a 15 = strTake a' 15) (h2 : strTake b 15 = strTake b' 15) :
    nome_par a b = nome_par a' b' := by
  rw [nome_par, nome_par, h1, h2]

theorem crosspop_C9_witness :
    strTake "Pergunta sobre hábitos A" 15 = strTake "Pergunta sobre hábitos B" 15 ∧
    strTake "Q2" 15 = strTake "Q2" 15 ∧
    nome_par "Pergunta sobre hábitos A" "Q2" = nome_par "Pergunta sobre hábitos B" "Q2" ∧
    "Pergunta sobre hábitos A" ≠ "Pergunta sobre hábitos B" :=
  ⟨by decide, by decide,
   crosspop_C9 "Pergunta sobre hábitos A" "Q2" "Pergunta sobre hábitos B" "Q2"
     (by decide) (by decide),
   by decide⟩

/-- C6: the strength classifier is exactly the category-dependent threshold
table of the spec — cut points 0.10/0.30/0.50 for at most 2 categories,
0.07/0.21/0.35 for 3 or 4, 0.06/0.17/0.29 for 5 or more, with the buckets
Fraca / Moderada / Forte / Muito forte — and an undefined (NaN) V is
classified Não aplicável for every category count. -/
theorem crosspop_C6 (v : ℚ) (c : ℕ) :
    (classificar_forca .nan c = "Não aplicável") ∧
    (c ≤ 2 → classificar_forca (.num v) c =
      if v < 1/10 then "Fraca" else if v < 3/10 then "Moderada"
      else if v < 1/2 then "Forte" else "Muito forte") ∧
    (3 ≤ c → c ≤ 4 → classificar_forca (.num v) c =
      if v < 7/100 then "Fraca" else if v < 21/100 then "Moderada"
      else if v < 35/100 then "Forte" else "Muito forte") ∧
    (5 ≤ c → classificar_forca (.num v) c =
      if v < 6/100 then "Fraca" else if v < 17/100 then "Moderada"
      else if v < 29/100 then "Forte" else "Muito forte") := by
  refine ⟨rfl, ?_, ?_, ?_⟩
  · intro h
    rw [classificar_forca]
    simp only [PFloat.isnan, Bool.false_eq_true, if_false, if_pos h, PFloat.lt,
      decide_eq_true_eq]
  · intro h3 h4
    rw [classificar_forca]
    simp only [PFloat.isnan, Bool.false_eq_true, if_false, if_neg (by omega : ¬c ≤ 2),
      if_pos h4, PFloat.lt, decide_eq_true_eq]
  · intro h5
    rw [classificar_forca]
    simp only [PFloat.isnan, Bool.false_eq_true, if_false, if_neg (by omega : ¬c ≤ 2),
      if_neg (by omega : ¬c ≤ 4), PFloat.lt, decide_eq_true_eq]

theorem crosspop_C6_witness :
    (3 ≤ 3 ∧ 3 ≤ 4 ∧ classificar_forca (.num (1/4)) 3 = "Forte") ∧
    classificar_forca .nan 3 = "Não aplicável" :=
  ⟨⟨by decide, by decide, by
    have h := (crosspop_C6 (1/4) 3).2.2.1 (by decide) (by decide)
    rw [h]
    decide⟩,
   (crosspop_C6 0 3).1⟩

/-- C4 counterexample: the spec claims the small-sample warning is appended
whenever N < 30 regardless of the branch that fired, but with N = 10 and an
adjusted p-value of 0.5 the not-significant branch returns early and the
text does not end with the warning. -/
theorem crosspop_C4_counterexample :
    gerar_recomendacao (.num (1/2)) (.num (1/10)) 10 2 2 =
      "Não significativo: sem associação relevante" ∧
    avisoAmostraPequena.toList.isSuffixOf
      (gerar_recomendacao (.num (1/2)) (.num (1/10)) 10 2 2).toList = false := by
  constructor
  · decide
  · decide

/-- C4 amended: the recommendation text ends with the small-sample warning
exactly when the significance branch fires — neither V nor the adjusted
p-value is NaN and the test p_aj >= 0.05 fails — and N < 30.  In
particular the not-applicable branch (a NaN input) and the not-significant
branch return early without the warning even when N < 30, and the
significance branch omits it when N >= 30. -/
theorem crosspop_C4 (p_aj v_cramer : PFloat) (n linhas colunas : ℕ) :
    avisoAmostraPequena.toList.isSuffixOf
      (gerar_recomendacao p_aj v_cramer n linhas colunas).toList =
    (!v_cramer.isnan && !p_aj.isnan && !(p_aj.ge (.num (1/20))) && decide (n < 30)) := by
  rw [gerar_recomendacao]
  by_cases hnan : (v_cramer.isnan || p_aj.isnan) = true
  · rw [if_pos hnan]
    have hrhs : (!v_cramer.isnan && !p_aj.isnan && !(p_aj.ge (.num (1/20))) &&
        decide (n < 30)) = false := by
      rcases Bool.or_eq_true_iff.mp hnan with h | h <;> simp [h]
    rw [hrhs]
    decide
  · have hvp := hnan
    simp only [Bool.or_eq_true, not_or, Bool.not_eq_true] at hvp
    rw [if_neg hnan]
    by_cases hge : p_aj.ge (.num (1/20)) = true
    · rw [if_pos hge]
      have hrhs : (!v_cramer.isnan && !p_aj.isnan && !(p_aj.ge (.num (1/20))) &&
          decide (n < 30)) = false := by
        rw [hge]
        simp
      rw [hrhs]
      decide
    · have hge2 : p_aj.ge (.num (1/20)) = false := by simpa using hge
      rw [if_neg hge]
      simp only [hvp.1, hvp.2, hge2, Bool.not_false, Bool.true_and]
      by_cases hn : n < 30
      · rw [if_pos hn, decide_eq_true hn]
        rw [List.isSuffixOf_iff_suffix]
        simp only [String.toList, String.data_append]
        exact List.suffix_append _ _
      · rw [if_neg hn]
        have hd : decide (n < 30) = false := by simp [hn]
        rw [hd]
        split_ifs <;> decide

/-- C5 counterexample: the spec claims the Cramer V is undefined (reported
not applicable, i.e. NaN) whenever N = 0; but with chi2 = 1, N = 0 and a
2×2 shape the code computes sqrt(1 / 0) = +inf under float semantics — a
value np.isnan does not flag, which the classifier then buckets as a
defined strength instead of "Não aplicável". -/
theorem crosspop_C5_counterexample :
    calcular_v_cramer_sq 1 0 2 2 = PFloat.inf ∧
    (calcular_v_cramer_sq 1 0 2 2).isnan = false ∧
    classificar_forca_sq (calcular_v_cramer_sq 1 0 2 2) 2 = "Muito forte" := by
  refine ⟨by decide, by decide, by decide⟩

/-- C5 amended: the evaluator returns NaN exactly when min(rows, cols) ≤ 1;
when min(rows, cols) > 1 and N ≠ 0 it returns the finite value
chi2 / (N × (min − 1)) (the square of the Cramer V before np.sqrt); when
N = 0 with min > 1 the float division yields ±inf or NaN instead of the
not-applicable marker.  For chi-square and N coming from a valid
contingency table (all marginals positive, at least 2 rows and columns) the
squared value lies in [0,1], hence the V value itself lies in [0,1]. -/
theorem crosspop_C5 :
    (∀ (chi2 n : ℚ) (r k : ℕ), min r k ≤ 1 → calcular_v_cramer_sq chi2 n r k = .nan) ∧
    (∀ (chi2 n : ℚ) (r k : ℕ), 1 < min r k → n ≠ 0 →
      calcular_v_cramer_sq chi2 n r k = .num (chi2 / (n * ((min r k : ℚ) - 1)))) ∧
    (∀ (R C : ℕ) (O : Fin R → Fin C → ℚ), 2 ≤ R → 2 ≤ C →
      (∀ i j, 0 ≤ O i j) → (∀ i, 0 < rowMarg O i) → (∀ j, 0 < colMarg O j) →
      ∃ q : ℚ, calcular_v_cramer_sq (chi2stat O) (totalN O) R C = .num q ∧
        0 ≤ q ∧ q ≤ 1 ∧ Real.sqrt (q : ℝ) ≤ 1) := by
  refine ⟨?_, ?_, ?_⟩
  · intro chi2 n r k h
    rw [calcular_v_cramer_sq, if_neg (by omega)]
  · intro chi2 n r k h hn
    rw [calcular_v_cramer_sq, if_pos h, PFloat.qdiv, if_pos ?_]
    refine mul_ne_zero hn ?_
    have h2 : (2 : ℚ) ≤ (min r k : ℚ) := by exact_mod_cast h
    linarith
  · intro R C O hR hC hO hr hc
    have hmin : 1 < min R C := by omega
    have hn : 0 < totalN O := totalN_pos O (by omega) hr
    have hden : (0 : ℚ) < totalN O * ((min R C : ℚ) - 1) := by
      refine mul_pos hn ?_
      have h2 : (2 : ℚ) ≤ (min R C : ℚ) := by exact_mod_cast hmin
      linarith
    refine ⟨chi2stat O / (totalN O * ((min R C : ℚ) - 1)), ?_, ?_, ?_, ?_⟩
    · rw [calcular_v_cramer_sq, if_pos hmin, PFloat.qdiv, if_pos (ne_of_gt hden)]
    · exact div_nonneg (chi2stat_nonneg O (by omega) hr hc) (le_of_lt hden)
    · rw [div_le_one hden]
      calc chi2stat O ≤ totalN O * ((min R C : ℚ) - 1) :=
        chi2stat_le O (by omega) hO hr hc
        _ = totalN O * ((min R C : ℚ) - 1) := rfl
    · rw [Real.sqrt_le_one]
      have hq : chi2stat O / (totalN O * ((min R C : ℚ) - 1)) ≤ 1 := by
        rw [div_le_one hden]
        exact chi2stat_le O (by omega) hO hr hc
      exact_mod_cast hq

example : totalN tblW = 10 := by decide

example : rowMarg tblW 0 = 3 := by decide

theorem crosspop_C5_witness :
    (1 < min 2 2) ∧ ((10 : ℚ) ≠ 0) ∧
    calcular_v_cramer_sq 3 10 2 2 = PFloat.num (3/10) ∧
    (∃ q : ℚ, calcular_v_cramer_sq (chi2stat tblW) (totalN tblW) 2 2 = .num q ∧
      0 ≤ q ∧ q ≤ 1 ∧ Real.sqrt (q : ℝ) ≤ 1) :=
  ⟨by decide, by decide,
   (crosspop_C5.2.1 3 10 2 2 (by decide) (by decide)).trans (by decide),
   crosspop_C5.2.2 2 2 tblW (by decide) (by decide) (by decide)
     (by decide) (by decide)⟩

/-- C8 counterexample: the spec claims a zero table total yields 0 in every
cell of the total view and a zero row total yields 0 across that row; in
fact pandas integer division 0/0 produces NaN (not 0 and not an error), so
on a zero-total table every cell of each view is NaN. -/
theorem crosspop_C8_counterexample :
    pct_total tabelaZero "r" "c" = PFloat.nan ∧
    pct_linha tabelaZero "r" "c" = PFloat.nan ∧
    pct_coluna tabelaZero "r" "c" = PFloat.nan ∧
    PFloat.nan ≠ PFloat.num 0 := by
  refine ⟨by decide, by decide, by decide, by decide⟩

/-- C8 amended: a zero denominator makes the percentage views produce NaN
rather than 0, but such a denominator never arises in the pipeline: every
table built by pd.crosstab has a positive row total for each of its row
labels, a positive column total for each of its column labels and a
positive grand total, so for every labelled cell all three percentage views
are finite numbers (never NaN, inf, or an error). -/
theorem crosspop_C8 (xs ys : List (Option String)) (a b : String)
    (ha : a ∈ (crosstab xs ys).rowsL) (hb : b ∈ (crosstab xs ys).colsL) :
    (∃ q : ℚ, pct_total (crosstab xs ys) a b = .num q) ∧
    (∃ q : ℚ, pct_linha (crosstab xs ys) a b = .num q) ∧
    (∃ q : ℚ, pct_coluna (crosstab xs ys) a b = .num q) := by
  have htot : 0 < (crosstab xs ys).total :=
    crosstab_total_pos xs ys (List.ne_nil_of_mem ha)
  have hrow : 0 < (crosstab xs ys).rowSum a := crosstab_rowSum_pos xs ys a ha
  have hcol : 0 < (crosstab xs ys).colSum b := crosstab_colSum_pos xs ys b hb
  refine ⟨?_, ?_, ?_⟩
  · refine ⟨((crosstab xs ys).cell a b : ℚ) / ((crosstab xs ys).total : ℚ) * 100, ?_⟩
    rw [pct_total, PFloat.qdiv, if_pos (by exact_mod_cast Nat.pos_iff_ne_zero.mp htot)]
    rfl
  · refine ⟨((crosstab xs ys).cell a b : ℚ) / ((crosstab xs ys).rowSum a : ℚ) * 100, ?_⟩
    rw [pct_linha, PFloat.qdiv, if_pos (by exact_mod_cast Nat.pos_iff_ne_zero.mp hrow)]
    rfl
  · refine ⟨((crosstab xs ys).cell a b : ℚ) / ((crosstab xs ys).colSum b : ℚ) * 100, ?_⟩
    rw [pct_coluna, PFloat.qdiv, if_pos (by exact_mod_cast Nat.pos_iff_ne_zero.mp hcol)]
    rfl

theorem crosspop_C8_witness :
    ("a" ∈ (crosstab [some "a", some "a"] [some "u", some "v"]).rowsL) ∧
    ("u" ∈ (crosstab [some "a", some "a"] [some "u", some "v"]).colsL) ∧
    ((∃ q : ℚ, pct_total (crosstab [some "a", some "a"] [some "u", some "v"]) "a" "u" = .num q) ∧
     (∃ q : ℚ, pct_linha (crosstab [some "a", some "a"] [some "u", some "v"]) "a" "u" = .num q) ∧
     (∃ q : ℚ, pct_coluna (crosstab [some "a", some "a"] [some "u", some "v"]) "a" "u" = .num q)) :=
  ⟨by decide, by decide,
   crosspop_C8 [some "a", some "a"] [some "u", some "v"] "a" "u" (by decide) (by decide)⟩

/-- C1: the adjusted p-value vector returned by the corrector (the
fdr_bh call of multipletests, guarded by the emptiness check of the
source) equals the Benjamini–Hochberg procedure exactly as the spec words
it — sort ascending, adjust by p×m/rank, running minimum from the largest
rank down, un-sort, clip to [0,1] — for every raw p-value vector with
nonnegative entries; the output always has the length of the input and the
empty input yields the empty output without error. -/
theorem crosspop_C1 (ps : List ℚ) (h0 : ∀ p ∈ ps, 0 ≤ p) :
    corrigir_p ps = bh_spec ps ∧ (corrigir_p ps).length = ps.length ∧
    corrigir_p [] = [] := by
  refine ⟨?_, ?_, rfl⟩
  · rw [corrigir_p]
    by_cases hps : ps.isEmpty
    · rw [if_pos hps]
      rw [List.isEmpty_iff.mp hps]
      rfl
    · rw [if_neg hps]
      exact fdr_bh_eq_bh_spec ps h0
  · rw [corrigir_p]
    by_cases hps : ps.isEmpty
    · rw [if_pos hps, List.isEmpty_iff.mp hps]
    · rw [if_neg hps]
      exact fdr_bh_length ps

theorem crosspop_C1_witness :
    (∀ p ∈ [(1 : ℚ)/100, 1/2, 1/4], 0 ≤ p) ∧
    (corrigir_p [(1 : ℚ)/100, 1/2, 1/4] = bh_spec [(1 : ℚ)/100, 1/2, 1/4] ∧
     (corrigir_p [(1 : ℚ)/100, 1/2, 1/4]).length = 3 ∧
     corrigir_p [] = []) :=
  ⟨by decide, crosspop_C1 [(1 : ℚ)/100, 1/2, 1/4] (by decide)⟩

/-- C7: for a nonempty raw p-value vector with entries in [0,1], every
adjusted p-value produced by the corrector is at least the raw p-value at
the same position, and when the raw vector is sorted ascending the adjusted
vector is monotonically non-decreasing. -/
theorem crosspop_C7 (ps : List ℚ) (hne : ps ≠ [])
    (h01 : ∀ p ∈ ps, 0 ≤ p ∧ p ≤ 1) :
    (∀ i, i < ps.length → ps.getD i 0 ≤ (corrigir_p ps).getD i 0) ∧
    (ps.Sorted (· ≤ ·) → (corrigir_p ps).Sorted (· ≤ ·)) := by
  have hcp : corrigir_p ps = fdr_bh ps := by
    rw [corrigir_p, if_neg (by simpa [List.isEmpty_iff] using hne)]
  constructor
  · intro i hi
    rw [hcp]
    exact fdr_bh_ge_raw ps (fun p hp => (h01 p hp).1) (fun p hp => (h01 p hp).2) i hi
  · intro hs
    rw [hcp]
    exact fdr_bh_sorted ps hs

theorem crosspop_C7_witness :
    ([(1 : ℚ)/10, 1/5, 1/2] ≠ []) ∧
    (∀ p ∈ [(1 : ℚ)/10, 1/5, 1/2], 0 ≤ p ∧ p ≤ 1) ∧
    ([(1 : ℚ)/10, 1/5, 1/2].getD 1 0 ≤ (corrigir_p [(1 : ℚ)/10, 1/5, 1/2]).getD 1 0) ∧
    ((corrigir_p [(1 : ℚ)/10, 1/5, 1/2]).Sorted (· ≤ ·)) :=
  ⟨by decide, by decide,
   (crosspop_C7 [(1 : ℚ)/10, 1/5, 1/2] (by decide) (by decide)).1 1 (by decide),
   (crosspop_C7 [(1 : ℚ)/10, 1/5, 1/2] (by decide) (by decide)).2 (by decide)⟩

/-- C2 is violated by the code: PASS 1 skips an empty-table pair (no raw
p-value), but PASS 2 guards its statistics block only with
idx_c < len(info_chi2) and never re-checks the current pair's table, so on
this dataset the empty pair (A,B) consumes info_chi2[0] and
p_adj_chi2[0] — the statistics that belong to (A,C) — receives the only
consolidated Association Result row, and the genuinely nonempty pair (A,C)
gets no row at all.  The invariant "the i-th raw p-value corresponds to the
i-th statistics-bearing pair of PASS 2, and an empty pair contributes no
row and consumes no position" fails. -/
theorem crosspop_C2_bug :
    (crosstab colA.values colB.values).size = 0 ∧
    0 < (crosstab colA.values colC.values).size ∧
    (pass1 dsFalha stFalha).1.length = 1 ∧
    ((gerar_crosstables dsFalha stFalha).1.map (fun r => (r.q1, r.q2))) = [("A", "B")] ∧
    ((gerar_crosstables dsFalha stFalha).1.map (fun r => r.p_aj)) = [1/2] := by
  refine ⟨by decide, by decide, by decide, by decide, by decide⟩

theorem gerar_crosstables_sheets (cols : List Coluna) (st : StatsOracle) :
    (gerar_crosstables cols st).2 =
      (List.range (colPairs cols).length).map (sheetAt cols st) := by
  simp only [gerar_crosstables]
  have h := pass2_inv cols st (colPairs cols).length (le_refl _)
  rw [List.take_length] at h
  rw [h]

/-- C10: the forca/significancia locals used to pick a sheet's conditional
format are assigned only inside the PASS 2 statistics branch.  If no pair
has statistics (len(info_chi2) = 0) every sheet's per-cell write hits the
unbound locals, the NameError is caught per cell and the cells carry no
highlighting; and every pair at a position at or past len(info_chi2) — a
pair without its own statistics — is highlighted with the forca and
significancia computed for the most recent statistics-bearing pair (the one
at position len(info_chi2) − 1) instead of values of its own. -/
theorem crosspop_C10 (cols : List Coluna) (st : StatsOracle) (k : ℕ)
    (hk : k < (colPairs cols).length) :
    ((pass1 cols st).2.length = 0 →
      ((gerar_crosstables cols st).2.getD k ("", .semDestaque)).2 =
        Formato.erroSemFormato) ∧
    (0 < (pass1 cols st).2.length → (pass1 cols st).2.length ≤ k →
      ((gerar_crosstables cols st).2.getD k ("", .semDestaque)).2 =
        formatoDe (some (fsAt cols st ((pass1 cols st).2.length - 1)))) := by
  have hsheets : ((gerar_crosstables cols st).2.getD k ("", .semDestaque)) =
      sheetAt cols st k := by
    rw [gerar_crosstables_sheets,
      List.getD_eq_getElem _ _ (by simpa using hk), List.getElem_map]
    congr 1
    simp
  constructor
  · intro hm
    rw [hsheets, sheetAt]
    have : fsSpec cols st (k + 1) = none := by
      rw [fsSpec, hm]
      simp
    rw [this]
    rfl
  · intro hm0 hmk
    rw [hsheets, sheetAt]
    have : fsSpec cols st (k + 1) = some (fsAt cols st ((pass1 cols st).2.length - 1)) := by
      rw [fsSpec]
      have hmin : min (k + 1) ((pass1 cols st).2.length) = (pass1 cols st).2.length := by
        omega
      rw [hmin, if_neg (by omega)]
    rw [this]

theorem crosspop_C10_witness :
    (2 < (colPairs dsFalha).length) ∧
    (0 < (pass1 dsFalha stFalha).2.length) ∧
    ((pass1 dsFalha stFalha).2.length ≤ 2) ∧
    ((gerar_crosstables dsFalha stFalha).2.getD 2 ("", .semDestaque)).2 =
      formatoDe (some (fsAt dsFalha stFalha ((pass1 dsFalha stFalha).2.length - 1))) :=
  ⟨by decide, by decide, by decide,
   (crosspop_C10 dsFalha stFalha 2 (by decide)).2 (by decide) (by decide)⟩

theorem sqrtq_lt (q t : ℚ) (ht : 0 < t) :
    (Real.sqrt (q : ℝ) < (t : ℝ)) ↔ q < t^2 := by
  rw [Real.sqrt_lt' (by exact_mod_cast ht)]
  exact_mod_cast Iff.rfl

/-- The squared-threshold classifier used by the pipeline embedding agrees
with the real-valued transcription of the source applied to √vsq, so
comparing the pre-square-root value against squared cut points is a
faithful rendering of comparing the V value against the cut points. -/
theorem classificar_forca_sq_sqrt (q : ℚ) (c : ℕ) :
    classificar_forcaR (Real.sqrt (q : ℝ)) c = classificar_forca_sq (.num q) c := by
  rw [classificar_forcaR, classificar_forca_sq]
  simp only [PFloat.isnan, Bool.false_eq_true, if_false, PFloat.lt, decide_eq_true_eq]
  by_cases h2 : c ≤ 2
  · simp only [if_pos h2]
    simp only [sqrtq_lt q (1/10) (by norm_num), sqrtq_lt q (3/10) (by norm_num),
      sqrtq_lt q (1/2) (by norm_num)]
    norm_num
  · by_cases h4 : c ≤ 4
    · simp only [if_neg h2, if_pos h4]
      simp only [sqrtq_lt q (7/100) (by norm_num), sqrtq_lt q (21/100) (by norm_num),
        sqrtq_lt q (35/100) (by norm_num)]
      norm_num
    · simp only [if_neg h2, if_neg h4]
      simp only [sqrtq_lt q (6/100) (by norm_num), sqrtq_lt q (17/100) (by norm_num),
        sqrtq_lt q (29/100) (by norm_num)]
      norm_num
